import Mathlib

/-!
Verification development for `run-recipe.py`, a YAML-recipe deployment
orchestration CLI.  The script is shallowly embedded here: Python strings
are `List Char`, Python dicts are association lists with unique keys and
insertion-order semantics, and the side-effecting orchestration of `main`
is a pure function from an oracle "world" (file contents, subprocess
results, interactive responses) to an exit code together with the trace of
subprocess invocations.
-/

namespace RunRecipe

/-- Python strings are modelled as lists of characters. -/
abbrev Str := List Char

/-- Coerce a Lean string literal to the character-list model. -/
def chars (s : String) : Str := s.data

/-- Python `str.isspace` characters relevant to `str.strip()`:
space, tab, newline, carriage return, vertical tab, form feed. -/
def pyIsSpace (c : Char) : Bool :=
  c = ' ' || c = '\t' || c = '\n' || c = '\x0d' || c = '\x0b' || c = '\x0c'

/-- `str.lstrip`-style removal of leading characters satisfying `p`. -/
def lstripBy (p : Char → Bool) (l : Str) : Str := l.dropWhile p

/-- `str.rstrip`-style removal of trailing characters satisfying `p`. -/
def rstripBy (p : Char → Bool) (l : Str) : Str := (l.reverse.dropWhile p).reverse

/-- `str.strip`-style removal at both ends. -/
def stripBy (p : Char → Bool) (l : Str) : Str := rstripBy p (lstripBy p l)

/-- Python `s.strip()` (whitespace at both ends). -/
def pstrip (l : Str) : Str := stripBy pyIsSpace l

/-- Python `s.rstrip()` (trailing whitespace). -/
def prstrip (l : Str) : Str := rstripBy pyIsSpace l

/-- Python `s.strip(c)` for a single character `c`. -/
def stripCh (c : Char) (l : Str) : Str := stripBy (fun d => d = c) l

/-- Python `s.lower()` (ASCII fragment, as used by the interactive prompts). -/
def lowerStr (l : Str) : Str := l.map Char.toLower

/-- Python `s.split(c)` for a one-character separator: splits at every
occurrence, keeping empty fields; `"".split(c) = [""]`. -/
def splitCh (c : Char) : Str → List Str
  | [] => [[]]
  | x :: rest =>
    if x = c then [] :: splitCh c rest
    else
      match splitCh c rest with
      | [] => [[x]]
      | g :: gs => (x :: g) :: gs

/-- Python `c.join(parts)` for a one-character separator. -/
def joinCh (c : Char) : List Str → Str
  | [] => []
  | [l] => l
  | l :: ls => l ++ c :: joinCh c ls

/-- Python `' '.join(parts)`. -/
def joinSp (ls : List Str) : Str := joinCh ' ' ls

/-- Python `s.partition(c)` restricted to the two interesting components,
assuming the separator occurs (the callers guard on `c in s`): the part
before the first occurrence of `c` and the part after it. -/
def partAtCh (c : Char) : Str → Str × Str
  | [] => ([], [])
  | x :: rest =>
    if x = c then ([], rest)
    else
      let p := partAtCh c rest
      (x :: p.1, p.2)

/-- Python substring containment `needle in hay`. -/
def strContains (needle : Str) : Str → Bool
  | [] => needle.isEmpty
  | c :: rest => needle.isPrefixOf (c :: rest) || strContains needle rest

/-- Truthiness of an optional string, as Python uses it for
`args.nodes`, `env.get("CLUSTER_NODES")`, `recipe.get("model")`:
`None` and the empty string are falsy. -/
def truthyO : Option Str → Bool
  | none => false
  | some s => !s.isEmpty

/-! ### Python dictionaries

A Python dict is modelled as an association list in insertion order with
unique keys.  `dinsert` is `d[k] = v` (replace in place if the key exists,
append otherwise); `alookup` is `d.get(k)` / `d[k]`. -/

/-- Dict lookup (`d.get(k)`). -/
def alookup {β : Type} : List (Str × β) → Str → Option β
  | [], _ => none
  | (k', v) :: rest, k => if k' = k then some v else alookup rest k

/-- Dict assignment `d[k] = v`: replaces the value in place when the key
is present, appends a new binding otherwise (Python insertion order). -/
def dinsert {β : Type} (d : List (Str × β)) (k : Str) (v : β) : List (Str × β) :=
  if (alookup d k).isSome then
    d.map (fun p => if p.1 = k then (p.1, v) else p)
  else
    d ++ [(k, v)]

/-- `d.setdefault(k, v)`: insert only when the key is absent. -/
def setdefault {β : Type} (d : List (Str × β)) (k : Str) (v : β) : List (Str × β) :=
  if (alookup d k).isSome then d else d ++ [(k, v)]

/-- String-valued dict (the common case: env caches, template parameters). -/
abbrev PyDict := List (Str × Str)

/-- Python `{**a, **b}`: fold the bindings of `b` into `a`, later bindings
overwriting earlier ones. -/
def pyMergeD {β : Type} (a b : List (Str × β)) : List (Str × β) :=
  b.foldl (fun d p => dinsert d p.1 p.2) a

/-! ### Recipe loading (`load_recipe`, lines 109-188)

YAML scalar/collection values.  String conversion (`str(...)`, used only
on `recipe_version`) is modelled for scalars; collections do not occur as
version values. -/

inductive YVal
  | s (v : Str)
  | i (n : Int)
  | b (v : Bool)
  | list (l : List YVal)
  | dict (d : List (Str × YVal))
  | null

/-- Python `str(...)` on the scalar values a `recipe_version` can take. -/
def yvalPyStr : YVal → Str
  | .s v => v
  | .i n => chars (toString n)
  | .b v => if v then chars "True" else chars "False"
  | _ => []

/-- A parsed recipe YAML mapping. -/
abbrev RecipeDict := List (Str × YVal)

/-- The four required recipe fields, in validation order. -/
def requiredFields : List Str :=
  [chars "name", chars "recipe_version", chars "container", chars "command"]

/-- The first required field missing from the mapping (the Python loop
exits the process at the first missing field). -/
def firstMissing (d : RecipeDict) : Option Str :=
  requiredFields.find? (fun f => (alookup d f).isNone)

/-- `load_recipe` after YAML parsing: validate the four required fields
(fatal `sys.exit(1)` naming the first missing one), then apply
`setdefault` for `description`, `model`, `mods`, `defaults`, `env`, then
perform the soft schema-version check.  Returns the recipe mapping
together with the version-supported flag (an unsupported version only
prints a warning).  File resolution is filesystem work outside this model;
the input is the parsed mapping. -/
def loadRecipeDict (d : RecipeDict) : Except (Nat × Str) (RecipeDict × Bool) :=
  match firstMissing d with
  | some f => .error (1, f)
  | none =>
    let d1 := setdefault d (chars "description") (.s [])
    let d2 := setdefault d1 (chars "model") .null
    let d3 := setdefault d2 (chars "mods") (.list [])
    let d4 := setdefault d3 (chars "defaults") (.dict [])
    let d5 := setdefault d4 (chars "env") (.dict [])
    let ver := match alookup d5 (chars "recipe_version") with
      | some v => yvalPyStr v
      | none => []
    .ok (d5, ver = chars "1")
/-! ### Environment cache file (`load_env_file` lines 520-550,
`save_env_file` lines 553-580) -/

/-- Lexicographic strict order on strings by code point (Python `<`). -/
def strLtB : Str → Str → Bool
  | [], [] => false
  | [], _ :: _ => true
  | _ :: _, [] => false
  | a :: as, b :: bs =>
    if a.toNat < b.toNat then true
    else if b.toNat < a.toNat then false
    else strLtB as bs

/-- Python tuple `<=` on `(key, value)` pairs, as `sorted(env.items())`
compares them; with distinct keys only the key part matters. -/
def pairLeB (x y : Str × Str) : Bool :=
  strLtB x.1 y.1 || (x.1 = y.1 && !strLtB y.2 x.2)

/-- `sorted(env.items())`. -/
def sortPairs (env : PyDict) : PyDict :=
  List.insertionSort (fun x y => pairLeB x y = true) env

/-- Lines 569-574: one line per binding; a value containing a space or a
comma is double-quoted. -/
def saveLine (k v : Str) : Str :=
  if v.contains ' ' || v.contains ',' then k ++ '=' :: '"' :: v ++ ['"']
  else k ++ '=' :: v

/-- Lines 568-575: the lines written to the `.env` file: a comment
header, a blank line, one line per binding in sorted order, and a final
blank line. -/
def saveEnvLines (env : PyDict) : List Str :=
  [chars "# Auto-generated by run-recipe.py --discover", []] ++
    (sortPairs env).map (fun p => saveLine p.1 p.2) ++ [[]]

/-- Lines 577-578: the file content is the newline-join of the lines. -/
def saveEnvFileStr (env : PyDict) : Str := joinCh '\n' (saveEnvLines env)

/-- Lines 543-549: fold one line of the `.env` file into the accumulating
dict: strip the line, skip blanks, `#`-comments and lines without `=`,
split at the first `=`, strip the key, and strip whitespace, then double
quotes, then single quotes from the value. -/
def parseEnvLine (env : PyDict) (rawLine : Str) : PyDict :=
  let line := pstrip rawLine
  if !line.isEmpty && !(chars "#").isPrefixOf line && line.contains '=' then
    let kv := partAtCh '=' line
    let value := stripCh '\'' (stripCh '"' (pstrip kv.2))
    dinsert env (pstrip kv.1) value
  else env

/-- `load_env_file` applied to existing file content (an absent file
yields the empty dict at the call sites). -/
def loadEnvFileStr (content : Str) : PyDict :=
  (splitCh '\n' content).foldl parseEnvLine []

/-- Keys that survive the save/load line round trip: no surrounding
whitespace (`key.strip()` on read), no `=` (the split point), no newline
(keys stay on one line), and not starting with the comment marker. -/
def goodEnvKey (k : Str) : Prop :=
  pstrip k = k ∧ k.contains '=' = false ∧ k.contains '\n' = false ∧ k.head? ≠ some '#'

instance (k : Str) : Decidable (goodEnvKey k) := by
  unfold goodEnvKey
  exact inferInstance

/-- Values that survive the save/load round trip: no newline and no
quote character (as in the claim), and additionally — the condition the
claim is missing — a value written unquoted (no space, no comma) must
carry no surrounding whitespace, because the reader strips it. -/
def goodEnvVal (v : Str) : Prop :=
  v.contains '\n' = false ∧ v.contains '"' = false ∧ v.contains '\'' = false ∧
    (v.contains ' ' = true ∨ v.contains ',' = true ∨ pstrip v = v)

instance (v : Str) : Decidable (goodEnvVal v) := by
  unfold goodEnvVal
  exact inferInstance

/-! ### Template substitution (`generate_launch_script`, lines 430-451) -/

/-- A segment of a parsed format template: literal text or a named
replacement field. -/
inductive Seg
  | lit (s : Str)
  | hole (name : Str)
deriving DecidableEq

/-- Characters that end a replacement-field name in Python's
format-string scanner (`:` starts a format spec, `!` a conversion). -/
def nameEndCh (c : Char) : Bool := c = '}' || c = '{' || c = ':' || c = '!'

/-- Field names inside the modelled fragment: non-empty keyword names.
An empty or all-digit name is a positional field — `.format(**params)`
receives no positional arguments, so Python raises an uncaught
`IndexError` — and attribute/index access (`.`/`[`) on a field is not
used by recipes; all of these fall outside the fragment. -/
def pyIdentOk (name : Str) : Bool :=
  !name.isEmpty && !(name.all Char.isDigit) &&
    name.all (fun c => c ≠ '.' && c ≠ '[' && c ≠ ']')

/-- One fuel unit per scanner step (each step consumes at least one
character, so `s.length + 1` fuel always suffices; `0` is unreachable
from `parseSegs`). -/
def parseSegsAux : Nat → Str → Option (List Seg)
  | 0, _ => none
  | _ + 1, [] => some []
  | fuel + 1, '{' :: '{' :: rest => (parseSegsAux fuel rest).map (fun r => .lit ['{'] :: r)
  | fuel + 1, '}' :: '}' :: rest => (parseSegsAux fuel rest).map (fun r => .lit ['}'] :: r)
  | fuel + 1, '{' :: rest =>
    let name := rest.takeWhile (fun c => !nameEndCh c)
    match rest.drop name.length with
    | '}' :: rest2 =>
      if pyIdentOk name then (parseSegsAux fuel rest2).map (fun r => .hole name :: r)
      else none
    | _ => none
  | _ + 1, '}' :: _ => none
  | fuel + 1, c :: rest => (parseSegsAux fuel rest).map (fun r => .lit [c] :: r)

/-- Parse a Python format template into segments, following the
`str.format` scanner: `{{`/`}}` are escaped braces, `{name}` is a
replacement field, and a stray `}`, an unterminated field, or a field
outside the modelled fragment is a formatting error (`none`). -/
def parseSegs (s : Str) : Option (List Seg) := parseSegsAux (s.length + 1) s

/-- Formatting errors of `str.format`. -/
inductive FmtErr
  | missingKey (name : Str)
  | malformed
deriving DecidableEq

/-- Substitute segments in order; the first hole without a value raises
`KeyError` on that name, as Python's streaming formatter does. -/
def renderSegsE : List Seg → PyDict → Except FmtErr Str
  | [], _ => .ok []
  | .lit l :: rest, p => (renderSegsE rest p).map (fun r => l ++ r)
  | .hole n :: rest, p =>
    match alookup p n with
    | some v => (renderSegsE rest p).map (fun r => v ++ r)
    | none => .error (.missingKey n)

/-- `command.format(**params)`: parse the template, then substitute.
On templates inside the modelled fragment this agrees with Python's
streaming formatter, including which missing key is reported first;
outside the fragment Python raises an exception `generate_launch_script`
does not catch, modelled as `.malformed`. -/
def pyFormat (s : Str) (p : PyDict) : Except FmtErr Str :=
  match parseSegs s with
  | none => .error .malformed
  | some segs => renderSegsE segs p

/-- The hole names of a parsed template, in order. -/
def segHoles (segs : List Seg) : List Str :=
  segs.filterMap (fun sg => match sg with | .hole n => some n | _ => none)

/-- Total rendering of a template all of whose holes have values: the
template text with each placeholder replaced by its parameter value. -/
def renderFilled (segs : List Seg) (p : PyDict) : Str :=
  segs.foldr (fun sg acc =>
    (match sg with | .lit l => l | .hole n => (alookup p n).getD []) ++ acc) []

/-- Errors of launch-script generation. -/
inductive GenErr
  | missingParam (name : Str) (avail : List Str)
  | pyError
deriving DecidableEq

/-- Lines 444-451: `try: command.format(**params) except KeyError as e`:
a missing key becomes a fatal `sys.exit(1)` carrying the missing name and
`list(params.keys())`; any other formatting exception propagates
uncaught (`pyError`). -/
def formatCommandE (command : Str) (params : PyDict) : Except GenErr Str :=
  match pyFormat command params with
  | .ok s => .ok s
  | .error (.missingKey k) => .error (.missingParam k (params.map Prod.fst))
  | .error .malformed => .error .pyError

/-- The parse of the spec's example template. -/
def c3exSegs : List Seg := (parseSegs (chars "serve --port {port}")).getD []

/-! ### Solo-mode line filtering (lines 453-464) -/

/-- The flag text whose presence on a line removes that line in solo
mode. -/
def distFlag : Str := chars "--distributed-executor-backend"

/-- Lines 455-464: split the command on newlines, keep every line not
containing the distributed-executor-backend flag, rejoin with newlines. -/
def soloFilterCmd (command : Str) : Str :=
  joinCh '\n' ((splitCh '\n' command).filter (fun line => !strContains distFlag line))

/-! ### Extra-argument appension (lines 466-475) -/

/-- Lines 467-475: append the joined passthrough arguments to the
command.  `command.rstrip()`; if it ends with a backslash, strip the
trailing backslash run (`rstrip('\\')`) and trailing whitespace, then
reattach on a new continued line; otherwise append after one space.
The caller guards on `extra_args` being non-empty. -/
def appendExtraArgs (command : Str) (extra : List Str) : Str :=
  let s := joinSp extra
  let c := prstrip command
  if c.getLast? = some '\\' then
    rstripBy pyIsSpace (rstripBy (fun d => d = '\\') c) ++ chars " \\" ++ '\n' :: chars "    " ++ s
  else
    c ++ ' ' :: s

/-- Modelled from the spec: the claim's reading of appension, which
strips only the single final continuation marker (one backslash, the last
non-whitespace character) before reattaching the arguments on a continued
line.  Used to compare the claim against `appendExtraArgs`. -/
def appendExtraArgsSpec (command : Str) (extra : List Str) : Str :=
  let s := joinSp extra
  let c := prstrip command
  if c.getLast? = some '\\' then
    c.dropLast ++ chars " \\" ++ '\n' :: chars "    " ++ s
  else
    c ++ ' ' :: s

/-! ### Orchestration model (`main`, lines 694-1166)

The side-effecting pipeline is modelled as a pure function from the
parsed arguments, the loaded recipe, and an oracle `World` (file
contents, subprocess outcomes, interactive responses) to an exit code
together with the ordered trace of subprocess invocations.  Printing and
file writes are not subprocesses and leave no events.  `load_recipe`'s
parsing/validation is covered by `loadRecipeDict`; here the successfully
loaded recipe is an input. -/

/-- A subprocess invocation, in program order.  `buildTool`'s and
`downloadTool`'s `copyTo` is the `--copy-to` host list (`[]` when the
flag is absent); `launcher` records the launch-cluster call. -/
inductive Ev
  | discover
  | localInspect (image : Str)
  | remoteInspect (image host : Str)
  | buildTool (image : Str) (copyTo : List Str) (args : List Str)
  | downloadTool (model : Str) (copyTo : List Str)
  | launcher (container : Str) (mods : List Str) (solo daemon : Bool)
      (nodes : List Str) (nccl : Option Str)
deriving DecidableEq

/-- Is the event a build-tool invocation? -/
def isBuildEv : Ev → Bool
  | .buildTool _ _ _ => true
  | _ => false

/-- The build-tool invocations of a trace. -/
def buildEvents (tr : List Ev) : List Ev := tr.filter isBuildEv

/-- Parsed CLI arguments (`argparse`, lines 719-829).  Override values
are carried as the strings they substitute into the template. -/
structure Args where
  recipeGiven : Bool
  listFlag : Bool
  setup : Bool
  buildOnly : Bool
  downloadOnly : Bool
  forceBuild : Bool
  forceDownload : Bool
  dryRun : Bool
  port : Option Str
  host : Option Str
  tensorParallel : Option Str
  gpuMemUtil : Option Str
  maxModelLen : Option Str
  solo : Bool
  nodesArg : Option Str
  daemon : Bool
  containerOverride : Option Str
  ncclDebug : Option Str
  discover : Bool
  showEnv : Bool
  extraRaw : List Str

/-- A recipe as `main` consumes it after loading: the five defaulted
fields are materialised; `buildArgs`/`clusterOnly` reflect the
`.get`-with-default call sites (lines 886, 923). -/
structure Recipe where
  name : Str
  container : Str
  command : Str
  model : Option Str
  mods : List Str
  defaults : PyDict
  env : PyDict
  buildArgs : List Str
  clusterOnly : Bool

/-- The oracle world: file contents, subprocess outcomes and interactive
responses.  `adResult` is the parsed variable map captured from the
discovery subprocess (`none` models a non-zero exit); the per-node
re-prompt loop (which only terminates on a valid answer) is abstracted by
`adAccept`, the final valid yes/no decision per node. -/
structure World where
  envFile : Option Str
  adScriptExists : Bool
  adResult : Option PyDict
  adAccept : Str → Bool
  savePromptResp : Str
  localImage : Bool
  workerHasImage : Str → Bool
  buildScriptExists : Bool
  buildOk : Bool
  downloadScriptExists : Bool
  downloadOk : Bool
  modelExists : Bool
  buildNowResp : Str
  launcherRc : Nat

/-- Lines 484-499 (`parse_nodes`) and the inline comprehension of
line 653: split on commas, strip each entry, drop empties. -/
def splitNodes (s : Str) : List Str :=
  ((splitCh ',' s).map pstrip).filter (fun n => !n.isEmpty)

/-- `parse_nodes` with the falsy-input guard of line 497. -/
def parseNodes : Option Str → List Str
  | none => []
  | some s => if s.isEmpty then [] else splitNodes s

/-- Lines 502-517 (`get_worker_nodes`). -/
def getWorkerNodes (nodes : List Str) : List Str :=
  if nodes.length ≤ 1 then [] else nodes.tail

/-- `load_env_file` including the existence check of line 541. -/
def loadEnvD : Option Str → PyDict
  | none => []
  | some content => loadEnvFileStr content

/-- Lines 583-691 (`run_autodiscover`): missing script → no subprocess
and no result; failing subprocess → a discovery event and no result;
otherwise the captured variable map, with the interactive multi-node
selection filtering `CLUSTER_NODES` (no nodes accepted → abort). -/
def runAutodiscoverM (w : World) : Option PyDict × List Ev :=
  if !w.adScriptExists then (none, [])
  else
    match w.adResult with
    | none => (none, [Ev.discover])
    | some env0 =>
      if truthyO (alookup env0 (chars "CLUSTER_NODES")) then
        let allNodes := splitNodes ((alookup env0 (chars "CLUSTER_NODES")).getD [])
        if allNodes.length > 1 then
          let selected := allNodes.filter w.adAccept
          if selected.isEmpty then (none, [Ev.discover])
          else (some (dinsert env0 (chars "CLUSTER_NODES") (joinCh ',' selected)),
            [Ev.discover])
        else (some env0, [Ev.discover])
      else (some env0, [Ev.discover])

/-- Lines 888-917: node resolution — the explicit CLI list first, then
the `.env` cache, then interactive auto-discovery.  (The save-to-`.env`
prompt after a mid-run discovery is a file write, not a subprocess, and
the file is not re-read afterwards.) -/
def resolveNodes (a : Args) (w : World) (envFile : Option Str) : List Str × List Ev :=
  let nodes := parseNodes a.nodesArg
  if nodes.isEmpty && !a.solo then
    let env := loadEnvD envFile
    if truthyO (alookup env (chars "CLUSTER_NODES")) then
      (parseNodes (alookup env (chars "CLUSTER_NODES")), [])
    else
      match runAutodiscoverM w with
      | (some denv, evs) =>
        if truthyO (alookup denv (chars "CLUSTER_NODES")) then
          (parseNodes (alookup denv (chars "CLUSTER_NODES")), evs)
        else ([], evs)
      | (none, evs) => ([], evs)
  else (nodes, [])

/-- Lines 276-319 (`build_image`): a missing build script fails without a
subprocess; otherwise one build-tool invocation whose success is the
tool's exit status (`copy_to` is passed only when truthy). -/
def buildImageM (image : Str) (copyTo : Option (List Str)) (bargs : List Str)
    (scriptExists ok : Bool) : Bool × List Ev :=
  if !scriptExists then (false, [])
  else (ok, [Ev.buildTool image (match copyTo with | some l => l | none => []) bargs])

/-- Lines 322-355 (`download_model`). -/
def downloadModelM (model : Str) (copyTo : Option (List Str))
    (scriptExists ok : Bool) : Bool × List Ev :=
  if !scriptExists then (false, [])
  else (ok, [Ev.downloadTool model (match copyTo with | some l => l | none => [])])

/-- Lines 970-993: the non-dry-run build phase body.  `some exit` fails
the invocation, `none` continues; the trace is a local image inspection,
then either a build (forced or locally missing) or per-worker remote
inspections followed by a build-and-copy restricted to the workers found
missing (only when there are truthy copy targets). -/
def buildPhaseRun (container : Str) (copyTargets : Option (List Str))
    (bargs : List Str) (force : Bool) (w : World) : Option Nat × List Ev :=
  let ev0 := [Ev.localInspect container]
  if force || !w.localImage then
    let r := buildImageM container copyTargets bargs w.buildScriptExists w.buildOk
    if r.1 then (none, ev0 ++ r.2) else (some 1, ev0 ++ r.2)
  else
    match copyTargets with
    | some (t :: ts) =>
      let checks := (t :: ts).map (fun x => Ev.remoteInspect container x)
      let missing := (t :: ts).filter (fun x => !w.workerHasImage x)
      if !missing.isEmpty then
        let r := buildImageM container (some missing) bargs w.buildScriptExists w.buildOk
        if r.1 then (none, ev0 ++ checks ++ r.2) else (some 1, ev0 ++ checks ++ r.2)
      else (none, ev0 ++ checks)
    | _ => (none, ev0)

/-- Lines 1049-1054: the override keys in loop order, paired with their
CLI values. -/
def cliOverridePairs (a : Args) : List (Str × Option Str) :=
  [(chars "port", a.port), (chars "host", a.host),
   (chars "tensor_parallel", a.tensorParallel),
   (chars "gpu_memory_utilization", a.gpuMemUtil),
   (chars "max_model_len", a.maxModelLen)]

/-- Lines 1049-1054: build the overrides dict, skipping unset values. -/
def buildOverridesD (a : Args) : PyDict :=
  (cliOverridePairs a).foldl
    (fun d p => match p.2 with | some v => dinsert d p.1 v | none => d) []

/-- Lines 1056-1057: in solo mode default `tensor_parallel` to 1 unless
the user explicitly set it. -/
def applySoloTp (d : PyDict) (isSolo : Bool) : PyDict :=
  if isSolo && !(alookup d (chars "tensor_parallel")).isSome then
    dinsert d (chars "tensor_parallel") (chars "1")
  else d

/-- Lines 388-481 (`generate_launch_script`): shebang and source-recipe
header, environment exports in declared order, template substitution
(fatal on a missing key), solo-mode line filtering, extra-argument
appension, final assembly. -/
def genLaunchScript (r : Recipe) (overrides : PyDict) (isSolo : Bool)
    (extra : List Str) : Except GenErr Str :=
  let params := pyMergeD r.defaults overrides
  let headerLines :=
    [chars "#!/bin/bash", chars "# Generated from recipe: " ++ r.name, []]
  let envLines :=
    if !r.env.isEmpty then
      [chars "# Environment variables"] ++
        r.env.map (fun p => chars "export " ++ p.1 ++ chars "=\"" ++ p.2 ++ ['"']) ++ [[]]
    else []
  match formatCommandE r.command params with
  | .error e => .error e
  | .ok cmd0 =>
    let cmd1 := if isSolo then soloFilterCmd cmd0 else cmd0
    let cmd2 := if !extra.isEmpty then appendExtraArgs cmd1 extra else cmd1
    .ok (joinCh '\n'
      (headerLines ++ envLines ++ [chars "# Run the model", pstrip cmd2, []]))

/-- Lines 1039-1040: the build-now decision — strip then lowercase the
response; only exactly `y` accepts. -/
def buildNowAccepts (resp : Str) : Bool := lowerStr (pstrip resp) = chars "y"

/-- Lines 1039-1046: the image gate's prompt outcome: accept → on-demand
build (abort 1 on failure), anything else → abort 1. -/
def runBuildNowGate (container : Str) (copyTargets : Option (List Str))
    (bargs : List Str) (resp : Str) (scriptExists ok : Bool) : Option Nat × List Ev :=
  if buildNowAccepts resp then
    let r := buildImageM container copyTargets bargs scriptExists ok
    if r.1 then (none, r.2) else (some 1, r.2)
  else (some 1, [])

/-- Lines 832-834: drop a leading `--` separator from the passthrough
arguments. -/
def filterSep (extra : List Str) : List Str :=
  match extra with
  | x :: rest => if x = chars "--" then rest else x :: rest
  | [] => []

/-- Lines 836-872: `--discover` handling (whose accepted result is saved
to `.env`, rewriting the file the later resolution reads), `--show-env`,
`--list`, and the missing-recipe help exit. -/
def preamble (a : Args) (w : World) : Except (Nat × List Ev) (List Ev × Option Str) :=
  let step : Except (Nat × List Ev) (List Ev × Option Str) :=
    if a.discover then
      match runAutodiscoverM w with
      | (none, evs) => .error (1, evs)
      | (some denv, evs) =>
        if !a.recipeGiven then .error (0, evs)
        else .ok (evs, some (saveEnvFileStr denv))
    else .ok ([], w.envFile)
  match step with
  | .error res => .error res
  | .ok (evs, ef) =>
    if a.showEnv && !a.recipeGiven then .error (0, evs)
    else if a.listFlag then .error (0, evs)
    else if !a.recipeGiven then .error (1, evs)
    else .ok (evs, ef)

/-- The `.env` content in effect when `main` reaches node resolution. -/
def mainEnvFile (a : Args) (w : World) : Option Str :=
  match preamble a w with
  | .ok (_, ef) => ef
  | .error _ => w.envFile

/-- The node list `main` resolves (the claim's "resolved node list"). -/
def resolvedNodeList (a : Args) (w : World) : List Str :=
  (resolveNodes a w (mainEnvFile a w)).1

/-- Lines 957-997: the build phase as guarded in `main`, including the
dry-run variant (whose existence check is still a subprocess) and the
`--build-only` early exit. -/
def buildStage (a : Args) (container : Str) (copyTargets : Option (List Str))
    (bargs : List Str) (w : World) : Except (Nat × List Ev) (List Ev) :=
  if a.buildOnly || a.setup || a.forceBuild then
    if a.dryRun then
      if a.buildOnly then .error (0, [Ev.localInspect container])
      else .ok [Ev.localInspect container]
    else
      match buildPhaseRun container copyTargets bargs a.forceBuild w with
      | (some e, evs) => .error (e, evs)
      | (none, evs) => if a.buildOnly then .error (0, evs) else .ok evs
  else .ok []

/-- Lines 1000-1025: the download phase (`check_model_exists` is a pure
filesystem check, not a subprocess). -/
def downloadStage (a : Args) (model : Option Str) (copyTargets : Option (List Str))
    (w : World) : Except (Nat × List Ev) (List Ev) :=
  if truthyO model && (a.downloadOnly || a.setup || a.forceDownload) then
    if a.dryRun then
      if a.downloadOnly then .error (0, []) else .ok []
    else
      if a.forceDownload || !w.modelExists then
        let r := downloadModelM (model.getD []) copyTargets
          w.downloadScriptExists w.downloadOk
        if r.1 then (if a.downloadOnly then .error (0, r.2) else .ok r.2)
        else .error (1, r.2)
      else if a.downloadOnly then .error (0, []) else .ok []
  else .ok []

/-- Lines 1027-1166: the run phase — the image-presence gate with its
build-now prompt (skipped under `--dry-run`/`--setup`), override
construction, script generation (exit 1 on a generation error), and the
launcher invocation; dry-run stops after rendering. -/
def runStage (a : Args) (r : Recipe) (container : Str)
    (copyTargets : Option (List Str)) (isSolo isCluster : Bool)
    (nodes : List Str) (extra : List Str) (w : World) : Nat × List Ev :=
  if a.buildOnly || a.downloadOnly then (0, [])
  else
    let gate : Except (Nat × List Ev) (List Ev) :=
      if !a.dryRun && !a.setup then
        if !w.localImage then
          match runBuildNowGate container copyTargets r.buildArgs w.buildNowResp
              w.buildScriptExists w.buildOk with
          | (some e, evs) => .error (e, Ev.localInspect container :: evs)
          | (none, evs) => .ok (Ev.localInspect container :: evs)
        else .ok [Ev.localInspect container]
      else .ok []
    match gate with
    | .error res => res
    | .ok evs =>
      let ov := applySoloTp (buildOverridesD a) isSolo
      match genLaunchScript r ov isSolo extra with
      | .error _ => (1, evs)
      | .ok _ =>
        if a.dryRun then (0, evs)
        else (w.launcherRc,
          evs ++ [Ev.launcher container r.mods (a.solo || !isCluster) a.daemon
            nodes a.ncclDebug])

/-- `main` (lines 694-1166) as an exit code plus the subprocess trace. -/
def mainModel (a : Args) (r : Recipe) (w : World) : Nat × List Ev :=
  let extra := filterSep a.extraRaw
  match preamble a w with
  | .error res => res
  | .ok (evs1, ef) =>
    let container := match a.containerOverride with
      | some c => if c.isEmpty then r.container else c
      | none => r.container
    match resolveNodes a w ef with
    | (nodes, evs2) =>
      let workerNodes := if nodes.isEmpty then [] else getWorkerNodes nodes
      let isCluster := decide (nodes.length > 1)
      let isSolo := a.solo || !isCluster
      if r.clusterOnly && isSolo then (1, evs1 ++ evs2)
      else
        let copyTargets := if isCluster then some workerNodes else none
        match buildStage a container copyTargets r.buildArgs w with
        | .error res => (res.1, evs1 ++ evs2 ++ res.2)
        | .ok evs3 =>
          match downloadStage a r.model copyTargets w with
          | .error res => (res.1, evs1 ++ evs2 ++ evs3 ++ res.2)
          | .ok evs4 =>
            let res := runStage a r container copyTargets isSolo isCluster
              nodes extra w
            (res.1, evs1 ++ evs2 ++ evs3 ++ evs4 ++ res.2)

/-- A world where the single worker lacks the image but everything else
is in place. -/
def c6exWorld : World :=
  ⟨none, true, none, fun _ => true, [], true, fun _ => false,
   true, true, true, true, true, [], 0⟩

/-- A world where every worker already has the image. -/
def c6exWorld2 : World :=
  ⟨none, true, none, fun _ => true, [], true, fun _ => true,
   true, true, true, true, true, [], 0⟩

/-- A plain invocation: recipe given, no flags, no nodes, no overrides. -/
def c2exArgs : Args :=
  ⟨true, false, false, false, false, false, false, false,
   none, none, none, none, none,
   false, none, false, none, none, false, false, []⟩

/-- A cluster-only recipe. -/
def c2exRecipe : Recipe :=
  ⟨chars "big", chars "img", chars "serve", none, [], [], [], [], true⟩

/-- A world with no `.env` cache where discovery finds a single node. -/
def c2exWorld : World :=
  ⟨none, true,
   some [(chars "CLUSTER_NODES", chars "10.0.0.1"), (chars "LOCAL_IP", chars "10.0.0.1")],
   fun _ => true, [], true, fun _ => true, true, true, true, true, true, [], 0⟩

/-- An invocation with no explicit tensor-parallel override. -/
def c9exArgs : Args :=
  ⟨true, false, false, false, false, false, false, false,
   some (chars "9000"), none, none, none, none,
   true, none, false, none, none, false, false, []⟩

/-- A concrete recipe mapping containing exactly the four required fields. -/
def c1exDict : RecipeDict :=
  [(chars "name", .s (chars "n")), (chars "recipe_version", .s (chars "1")),
   (chars "container", .s (chars "c")), (chars "command", .s (chars "run"))]

/-- What `load_recipe` returns on `c1exDict`: the five `setdefault` keys are
appended; `build_args` and `cluster_only` are not. -/
def c1exLoaded : RecipeDict :=
  c1exDict ++
  [(chars "description", .s []), (chars "model", .null), (chars "mods", .list []),
   (chars "defaults", .dict []), (chars "env", .dict [])]

/-- A concrete recipe mapping missing the required `container` field. -/
def c8exDict : RecipeDict :=
  [(chars "name", .s (chars "n")), (chars "recipe_version", .s (chars "1")),
   (chars "command", .s (chars "run"))]

/-- A mapping whose value satisfies the claim's conditions (no newline,
no quotes) yet does not survive the round trip: a tab-led value with no
space and no comma is written unquoted and stripped on read. -/
def c5exEnv : PyDict := [(chars "K", '\t' :: chars "a")]

/-- A typical discovered configuration, including a comma-and-space
bearing node list (quoted on write, unquoted on read). -/
def c5exEnv2 : PyDict :=
  [(chars "CLUSTER_NODES", chars "10.0.0.1, 10.0.0.2"),
   (chars "LOCAL_IP", chars "10.0.0.1")]

/-! ## Theorems -/

theorem alookup_map_replace {β : Type} (d : List (Str × β)) (k : Str) (v : β)
    (h : (alookup d k).isSome) :
    alookup (d.map (fun p => if p.1 = k then (p.1, v) else p)) k = some v := by
  induction d with
  | nil => simp [alookup] at h
  | cons p rest ih =>
    simp only [List.map_cons]
    by_cases hk : p.1 = k
    · rw [if_pos hk]
      simp [alookup, hk]
    · rw [if_neg hk]
      simp only [alookup, if_neg hk] at h ⊢
      exact ih h

theorem alookup_map_replace_ne {β : Type} (d : List (Str × β)) (k k' : Str) (v : β)
    (h : k' ≠ k) :
    alookup (d.map (fun p => if p.1 = k then (p.1, v) else p)) k' = alookup d k' := by
  induction d with
  | nil => simp [alookup]
  | cons p rest ih =>
    simp only [List.map_cons]
    by_cases hk : p.1 = k
    · rw [if_pos hk]
      subst hk
      simp only [alookup]
      rw [if_neg (fun hh : p.1 = k' => h hh.symm), if_neg (fun hh : p.1 = k' => h hh.symm)]
      exact ih
    · rw [if_neg hk]
      simp only [alookup]
      by_cases hpk' : p.1 = k'
      · rw [if_pos hpk', if_pos hpk']
      · rw [if_neg hpk', if_neg hpk']
        exact ih

theorem alookup_append_right {β : Type} (a b : List (Str × β)) (k : Str)
    (h : alookup a k = none) : alookup (a ++ b) k = alookup b k := by
  induction a with
  | nil => simp
  | cons p rest ih =>
    by_cases hk : p.1 = k
    · simp [alookup, if_pos hk] at h
    · simp only [alookup, if_neg hk] at h
      simpa only [List.cons_append, alookup, if_neg hk] using ih h

theorem alookup_append_single_ne {β : Type} (d : List (Str × β)) (k k' : Str) (v : β)
    (h : k' ≠ k) : alookup (d ++ [(k, v)]) k' = alookup d k' := by
  induction d with
  | nil =>
    simp only [List.nil_append, alookup]
    rw [if_neg (fun hh : k = k' => h hh.symm)]
  | cons p rest ih =>
    simp only [List.cons_append, alookup]
    by_cases hpk' : p.1 = k'
    · rw [if_pos hpk', if_pos hpk']
    · rw [if_neg hpk', if_neg hpk']
      exact ih

theorem alookup_dinsert_self {β : Type} (d : List (Str × β)) (k : Str) (v : β) :
    alookup (dinsert d k v) k = some v := by
  unfold dinsert
  split
  · exact alookup_map_replace d k v (by assumption)
  · rename_i h
    rw [Option.not_isSome_iff_eq_none] at h
    rw [alookup_append_right _ _ _ h]
    simp [alookup]

theorem alookup_dinsert_ne {β : Type} (d : List (Str × β)) (k k' : Str) (v : β)
    (h : k' ≠ k) : alookup (dinsert d k v) k' = alookup d k' := by
  unfold dinsert
  split
  · exact alookup_map_replace_ne d k k' v h
  · exact alookup_append_single_ne d k k' v h

theorem alookup_setdefault_self_isSome {β : Type} (d : List (Str × β)) (k : Str) (v : β) :
    (alookup (setdefault d k v) k).isSome := by
  unfold setdefault
  split
  · assumption
  · rename_i h
    rw [Option.not_isSome_iff_eq_none] at h
    rw [alookup_append_right _ _ _ h]
    simp [alookup]

theorem alookup_setdefault_ne {β : Type} (d : List (Str × β)) (k k' : Str) (v : β)
    (h : k' ≠ k) : alookup (setdefault d k v) k' = alookup d k' := by
  unfold setdefault
  split
  · rfl
  · exact alookup_append_single_ne d k k' v h

theorem alookup_setdefault_isSome_mono {β : Type} (d : List (Str × β)) (k k' : Str) (v : β)
    (h : (alookup d k').isSome) : (alookup (setdefault d k v) k').isSome := by
  by_cases hk : k' = k
  · subst hk
    exact alookup_setdefault_self_isSome d k' v
  · rw [alookup_setdefault_ne d k k' v hk]
    exact h

/-- C1 (counterexample): the claim says every recipe returned by
`load_recipe` has `build_args` and `cluster_only` populated with defaults.
On a recipe carrying exactly the four required fields, the returned mapping
has neither key: `load_recipe` only applies `setdefault` for
`description`, `model`, `mods`, `defaults` and `env`. -/
theorem c1_counterexample :
    loadRecipeDict c1exDict = .ok (c1exLoaded, true) ∧
    (alookup c1exLoaded (chars "build_args")).isNone = true ∧
    (alookup c1exLoaded (chars "cluster_only")).isNone = true :=
  ⟨rfl, rfl, rfl⟩

/-- C1 (amended): for every successfully loaded recipe, `load_recipe`
populates the five optional fields `description`, `model`, `mods`,
`defaults`, `env` with defaults; `build_args` and `cluster_only` are left
exactly as in the parsed mapping (callers default them at use sites). -/
theorem c1_amended_defaults (d r : RecipeDict) (vb : Bool)
    (h : loadRecipeDict d = .ok (r, vb)) :
    (alookup r (chars "description")).isSome = true ∧
    (alookup r (chars "model")).isSome = true ∧
    (alookup r (chars "mods")).isSome = true ∧
    (alookup r (chars "defaults")).isSome = true ∧
    (alookup r (chars "env")).isSome = true ∧
    alookup r (chars "build_args") = alookup d (chars "build_args") ∧
    alookup r (chars "cluster_only") = alookup d (chars "cluster_only") := by
  unfold loadRecipeDict at h
  cases hm : firstMissing d with
  | some f => rw [hm] at h; exact absurd h (by simp)
  | none =>
    rw [hm] at h
    simp only [Except.ok.injEq, Prod.mk.injEq] at h
    obtain ⟨hr, _⟩ := h
    subst hr
    refine ⟨?_, ?_, ?_, ?_, ?_, ?_, ?_⟩
    · apply alookup_setdefault_isSome_mono
      apply alookup_setdefault_isSome_mono
      apply alookup_setdefault_isSome_mono
      apply alookup_setdefault_isSome_mono
      exact alookup_setdefault_self_isSome d _ _
    · apply alookup_setdefault_isSome_mono
      apply alookup_setdefault_isSome_mono
      apply alookup_setdefault_isSome_mono
      exact alookup_setdefault_self_isSome _ _ _
    · apply alookup_setdefault_isSome_mono
      apply alookup_setdefault_isSome_mono
      exact alookup_setdefault_self_isSome _ _ _
    · apply alookup_setdefault_isSome_mono
      exact alookup_setdefault_self_isSome _ _ _
    · exact alookup_setdefault_self_isSome _ _ _
    · rw [alookup_setdefault_ne _ _ _ _ (by decide),
        alookup_setdefault_ne _ _ _ _ (by decide),
        alookup_setdefault_ne _ _ _ _ (by decide),
        alookup_setdefault_ne _ _ _ _ (by decide),
        alookup_setdefault_ne _ _ _ _ (by decide)]
    · rw [alookup_setdefault_ne _ _ _ _ (by decide),
        alookup_setdefault_ne _ _ _ _ (by decide),
        alookup_setdefault_ne _ _ _ _ (by decide),
        alookup_setdefault_ne _ _ _ _ (by decide),
        alookup_setdefault_ne _ _ _ _ (by decide)]

/-- C1 witness: the amended statement instantiated at the concrete recipe. -/
theorem c1_amended_defaults_witness :
    (alookup c1exLoaded (chars "description")).isSome = true ∧
    (alookup c1exLoaded (chars "model")).isSome = true ∧
    (alookup c1exLoaded (chars "mods")).isSome = true ∧
    (alookup c1exLoaded (chars "defaults")).isSome = true ∧
    (alookup c1exLoaded (chars "env")).isSome = true ∧
    alookup c1exLoaded (chars "build_args") = alookup c1exDict (chars "build_args") ∧
    alookup c1exLoaded (chars "cluster_only") = alookup c1exDict (chars "cluster_only") :=
  c1_amended_defaults c1exDict c1exLoaded true rfl

/-- C8: if any of the four required recipe fields (`name`,
`recipe_version`, `container`, `command`) is absent from the parsed
mapping, loading fails with exit status 1 naming a field that is indeed a
missing required one; if all four are present, required-field validation
passes and a recipe is returned. -/
theorem c8_required_fields (d : RecipeDict) :
    ((∃ f ∈ requiredFields, alookup d f = none) →
      ∃ f, loadRecipeDict d = .error (1, f) ∧ f ∈ requiredFields ∧ alookup d f = none) ∧
    ((∀ f ∈ requiredFields, (alookup d f).isSome) →
      ∃ r vb, loadRecipeDict d = .ok (r, vb)) := by
  constructor
  · rintro ⟨f, hf, hnone⟩
    cases hm : firstMissing d with
    | some g =>
      refine ⟨g, ?_, ?_, ?_⟩
      · unfold loadRecipeDict
        rw [hm]
      · exact List.mem_of_find?_eq_some hm
      · have := List.find?_some hm
        simpa [Option.isNone_iff_eq_none] using this
    | none =>
      exfalso
      rw [firstMissing, List.find?_eq_none] at hm
      exact absurd (by simpa [Option.isNone_iff_eq_none] using hnone) (by simpa using hm f hf)
  · intro hall
    cases hm : firstMissing d with
    | some g =>
      exfalso
      have hmem := List.mem_of_find?_eq_some hm
      have hnone := List.find?_some hm
      have := hall g hmem
      rw [Option.isNone_iff_eq_none] at hnone
      rw [hnone] at this
      simp at this
    | none =>
      unfold loadRecipeDict
      rw [hm]
      exact ⟨_, _, rfl⟩

/-- C8 witness: a recipe missing `container` fails naming a missing
required field; `c1exDict` (all four present) passes validation. -/
theorem c8_required_fields_witness :
    (∃ f, loadRecipeDict c8exDict = .error (1, f) ∧ f ∈ requiredFields ∧
      alookup c8exDict f = none) ∧
    (∃ r vb, loadRecipeDict c1exDict = .ok (r, vb)) :=
  ⟨(c8_required_fields c8exDict).1 ⟨chars "container", by decide, rfl⟩,
   (c8_required_fields c1exDict).2 (by decide)⟩

/-! ### Merge and template lemmas -/

theorem merge_alookup_notin {β : Type} (a b : List (Str × β)) (k : Str)
    (h : ∀ p ∈ b, p.1 ≠ k) : alookup (pyMergeD a b) k = alookup a k := by
  induction b generalizing a with
  | nil => rfl
  | cons q rest ih =>
    have hq : q.1 ≠ k := h q (by simp)
    show alookup (pyMergeD (dinsert a q.1 q.2) rest) k = _
    rw [ih (dinsert a q.1 q.2) (fun p hp => h p (by simp [hp]))]
    exact alookup_dinsert_ne a q.1 k q.2 (fun hh => hq hh.symm)

theorem merge_alookup_right {β : Type} (a b : List (Str × β)) (k : Str) (v : β)
    (hnd : (b.map Prod.fst).Nodup) (h : alookup b k = some v) :
    alookup (pyMergeD a b) k = some v := by
  induction b generalizing a with
  | nil => simp [alookup] at h
  | cons q rest ih =>
    simp only [List.map_cons, List.nodup_cons] at hnd
    obtain ⟨hq, hrest⟩ := hnd
    by_cases hk : q.1 = k
    · have hv : q.2 = v := by
        rw [alookup, if_pos hk] at h
        exact Option.some.inj h
      show alookup (pyMergeD (dinsert a q.1 q.2) rest) k = some v
      rw [merge_alookup_notin (dinsert a q.1 q.2) rest k
        (fun p hp hpk => hq (by rw [hk, ← hpk]; exact List.mem_map_of_mem Prod.fst hp))]
      rw [← hk, alookup_dinsert_self, hv]
    · have h' : alookup rest k = some v := by rwa [alookup, if_neg hk] at h
      show alookup (pyMergeD (dinsert a q.1 q.2) rest) k = some v
      exact ih (dinsert a q.1 q.2) hrest h'

theorem segHoles_lit (l : Str) (rest : List Seg) :
    segHoles (.lit l :: rest) = segHoles rest := rfl

theorem segHoles_hole (n : Str) (rest : List Seg) :
    segHoles (.hole n :: rest) = n :: segHoles rest := rfl

theorem renderSegsE_all_some (segs : List Seg) (p : PyDict)
    (h : ∀ n ∈ segHoles segs, (alookup p n).isSome) :
    renderSegsE segs p = .ok (renderFilled segs p) := by
  induction segs with
  | nil => rfl
  | cons sg rest ih =>
    cases sg with
    | lit l =>
      have hr := ih (fun n hn => h n (by rw [segHoles_lit]; exact hn))
      show (renderSegsE rest p).map (fun r => l ++ r) = _
      rw [hr]
      rfl
    | hole n =>
      have hs : (alookup p n).isSome := h n (by rw [segHoles_hole]; exact List.mem_cons_self n _)
      obtain ⟨v, hv⟩ := Option.isSome_iff_exists.mp hs
      have hr := ih (fun m hm => h m (by rw [segHoles_hole]; exact List.mem_cons_of_mem n hm))
      show (match alookup p n with
        | some v => (renderSegsE rest p).map (fun r => v ++ r)
        | none => Except.error (.missingKey n)) = _
      rw [hv, hr]
      show Except.ok (v ++ renderFilled rest p) = _
      rw [show renderFilled (.hole n :: rest) p = (alookup p n).getD [] ++ renderFilled rest p
        from rfl, hv]
      rfl

theorem renderSegsE_missing (segs : List Seg) (p : PyDict)
    (h : ∃ n ∈ segHoles segs, alookup p n = none) :
    ∃ k, renderSegsE segs p = .error (.missingKey k) ∧
      k ∈ segHoles segs ∧ alookup p k = none := by
  induction segs with
  | nil => simp [segHoles] at h
  | cons sg rest ih =>
    cases sg with
    | lit l =>
      have h' : ∃ n ∈ segHoles rest, alookup p n = none := by
        rw [segHoles_lit] at h
        exact h
      obtain ⟨k, hk1, hk2, hk3⟩ := ih h'
      refine ⟨k, ?_, by rw [segHoles_lit]; exact hk2, hk3⟩
      show (renderSegsE rest p).map (fun r => l ++ r) = _
      rw [hk1]
      rfl
    | hole n =>
      cases hv : alookup p n with
      | none =>
        refine ⟨n, ?_, by rw [segHoles_hole]; exact List.mem_cons_self n _, hv⟩
        show (match alookup p n with
          | some v => (renderSegsE rest p).map (fun r => v ++ r)
          | none => Except.error (.missingKey n)) = _
        rw [hv]
      | some v =>
        have h' : ∃ m ∈ segHoles rest, alookup p m = none := by
          rcases h with ⟨m, hm, hmn⟩
          rw [segHoles_hole] at hm
          rcases List.mem_cons.mp hm with hm | hm
          · subst hm; rw [hv] at hmn; exact absurd hmn (by simp)
          · exact ⟨m, hm, hmn⟩
        obtain ⟨k, hk1, hk2, hk3⟩ := ih h'
        refine ⟨k, ?_, by rw [segHoles_hole]; exact List.mem_cons_of_mem n hk2, hk3⟩
        show (match alookup p n with
          | some v => (renderSegsE rest p).map (fun r => v ++ r)
          | none => Except.error (.missingKey n)) = _
        rw [hv, hk1]
        rfl

theorem formatCommandE_of_parse (t : Str) (segs : List Seg) (p : PyDict)
    (ht : parseSegs t = some segs) :
    formatCommandE t p =
      (match renderSegsE segs p with
        | .ok s => .ok s
        | .error (.missingKey k) => .error (.missingParam k (p.map Prod.fst))
        | .error .malformed => .error .pyError) := by
  unfold formatCommandE pyFormat
  rw [ht]

/-- C3: launch-command formatting is the pure function `formatCommandE` of
the template and the merged parameter map `pyMergeD defaults overrides`.
CLI overrides win on every key collision; if every placeholder of the
template has a value in the merged map the result is the template with
placeholders replaced (`renderFilled`); if some placeholder has no value,
the result is the fatal exit-1 error naming a missing placeholder and
carrying the full available-key list. -/
theorem c3_template_substitution (t : Str) (segs : List Seg) (defaults overrides : PyDict)
    (ht : parseSegs t = some segs) (hnd : (overrides.map Prod.fst).Nodup) :
    (∀ k v, alookup overrides k = some v → alookup (pyMergeD defaults overrides) k = some v) ∧
    ((∀ n ∈ segHoles segs, (alookup (pyMergeD defaults overrides) n).isSome) →
      formatCommandE t (pyMergeD defaults overrides) =
        .ok (renderFilled segs (pyMergeD defaults overrides))) ∧
    ((∃ n ∈ segHoles segs, alookup (pyMergeD defaults overrides) n = none) →
      ∃ k, formatCommandE t (pyMergeD defaults overrides) =
          .error (.missingParam k ((pyMergeD defaults overrides).map Prod.fst)) ∧
        k ∈ segHoles segs ∧ alookup (pyMergeD defaults overrides) k = none) := by
  refine ⟨fun k v h => merge_alookup_right defaults overrides k v hnd h, ?_, ?_⟩
  · intro hall
    rw [formatCommandE_of_parse t segs _ ht, renderSegsE_all_some segs _ hall]
  · intro hmiss
    obtain ⟨k, hk1, hk2, hk3⟩ := renderSegsE_missing segs _ hmiss
    refine ⟨k, ?_, hk2, hk3⟩
    rw [formatCommandE_of_parse t segs _ ht, hk1]

/-- C3 witness: the spec's example — `"serve --port {port}"` with an
override `port=9000` over a recipe default `port=8000` yields
`"serve --port 9000"`, and the override wins in the merged map. -/
theorem c3_template_substitution_witness :
    formatCommandE (chars "serve --port {port}")
        (pyMergeD [(chars "port", chars "8000")] [(chars "port", chars "9000")]) =
      .ok (chars "serve --port 9000") ∧
    alookup (pyMergeD [(chars "port", chars "8000")] [(chars "port", chars "9000")])
        (chars "port") = some (chars "9000") := by
  have h := c3_template_substitution (chars "serve --port {port}") c3exSegs
    [(chars "port", chars "8000")] [(chars "port", chars "9000")] rfl (by decide)
  exact ⟨(h.2.1 (by decide)).trans (by rfl), h.1 (chars "port") (chars "9000") rfl⟩

/-! ### Split/join lemmas for line filtering -/

theorem splitCh_not_mem (c : Char) (l : Str) (h : c ∉ l) : splitCh c l = [l] := by
  induction l with
  | nil => simp [splitCh]
  | cons x rest ih =>
    have hx : x ≠ c := fun hh => h (hh ▸ List.mem_cons_self x rest)
    have hr : c ∉ rest := fun hh => h (List.mem_cons_of_mem x hh)
    simp [splitCh, hx, ih hr]

theorem splitCh_append_cons (c : Char) (l t : Str) (h : c ∉ l) :
    splitCh c (l ++ c :: t) = l :: splitCh c t := by
  induction l with
  | nil => simp [splitCh]
  | cons x rest ih =>
    have hx : x ≠ c := fun hh => h (hh ▸ List.mem_cons_self x rest)
    have hr : c ∉ rest := fun hh => h (List.mem_cons_of_mem x hh)
    simp [splitCh, hx, ih hr]

theorem joinCh_split_inv (c : Char) (ls : List Str) (h : ∀ l ∈ ls, c ∉ l)
    (hne : ls ≠ []) : splitCh c (joinCh c ls) = ls := by
  induction ls with
  | nil => exact absurd rfl hne
  | cons l rest ih =>
    cases rest with
    | nil => simpa [joinCh] using splitCh_not_mem c l (h l (by simp))
    | cons l2 rest2 =>
      rw [show joinCh c (l :: l2 :: rest2) = l ++ c :: joinCh c (l2 :: rest2) from rfl]
      rw [splitCh_append_cons c _ _ (h l (by simp))]
      rw [ih (fun x hx => h x (by simp [hx])) (by simp)]

theorem mem_splitCh (c : Char) (s l : Str) (h : l ∈ splitCh c s) : c ∉ l := by
  induction s generalizing l with
  | nil =>
    simp [splitCh] at h
    subst h; simp
  | cons x rest ih =>
    by_cases hx : x = c
    · rw [show splitCh c (x :: rest) = [] :: splitCh c rest by simp [splitCh, hx]] at h
      rcases List.mem_cons.mp h with h | h
      · subst h; simp
      · exact ih l h
    · cases hs : splitCh c rest with
      | nil =>
        rw [show splitCh c (x :: rest) = [[x]] by simp [splitCh, hx, hs]] at h
        simp at h
        subst h
        intro hc
        exact hx ((List.mem_singleton.mp hc).symm)
      | cons g gs =>
        rw [show splitCh c (x :: rest) = (x :: g) :: gs by simp [splitCh, hx, hs]] at h
        rcases List.mem_cons.mp h with h | h
        · subst h
          have hg : c ∉ g := ih g (by rw [hs]; exact List.mem_cons_self g gs)
          intro hc
          rcases List.mem_cons.mp hc with hc | hc
          · exact hx hc.symm
          · exact hg hc
        · exact ih l (by rw [hs]; exact List.mem_cons_of_mem g h)

/-- C7: in solo mode, the lines of the filtered command are exactly the
lines of the original command that do not contain the
distributed-executor-backend flag text, in their original relative order
(when every line is removed, the result is the empty string, whose sole
line is empty). -/
theorem c7_solo_filtering (command : Str) :
    splitCh '\n' (soloFilterCmd command) =
      (if ((splitCh '\n' command).filter (fun line => !strContains distFlag line)).isEmpty
       then [[]]
       else (splitCh '\n' command).filter (fun line => !strContains distFlag line)) := by
  unfold soloFilterCmd
  by_cases hke : ((splitCh '\n' command).filter (fun line => !strContains distFlag line)).isEmpty
  · rw [if_pos hke]
    rw [List.isEmpty_iff] at hke
    rw [hke]
    rfl
  · rw [if_neg hke]
    rw [List.isEmpty_iff] at hke
    exact joinCh_split_inv '\n' _
      (fun l hl => mem_splitCh '\n' command l (List.mem_of_mem_filter hl)) hke

/-! ### Backslash-run lemmas for extra-argument appension -/

theorem dropWhile_cons_head_false {p : Char → Bool} (l : Str) (d : Char) (ds : Str)
    (h : l.dropWhile p = d :: ds) : p d = false := by
  induction l with
  | nil => simp [List.dropWhile] at h
  | cons x rest ih =>
    rw [List.dropWhile_cons] at h
    by_cases hx : p x
    · rw [if_pos hx] at h
      exact ih h
    · rw [if_neg hx] at h
      cases h
      simpa using hx

/-- C4 (counterexample): for a command whose trailing non-whitespace run
is two backslashes, the code strips the whole run (yielding
`"run \\\n    x"`), while the claim — strip only the single final
marker — yields `"run\\ \\\n    x"`. -/
theorem c4_counterexample :
    appendExtraArgs (chars "run\\\\") [chars "x"] = chars "run \\" ++ '\n' :: chars "    x" ∧
    appendExtraArgsSpec (chars "run\\\\") [chars "x"] = chars "run\\ \\" ++ '\n' :: chars "    x" ∧
    appendExtraArgs (chars "run\\\\") [chars "x"] ≠
      appendExtraArgsSpec (chars "run\\\\") [chars "x"] :=
  ⟨rfl, rfl, by decide⟩

/-- C4 (amended): with non-empty passthrough arguments, when the
command's last non-whitespace character is a backslash the code removes
the entire maximal trailing run of backslashes (not just the single final
marker) together with the whitespace around it, then attaches the joined
arguments on a new continued line; otherwise the joined arguments are
appended to the whitespace-rstripped command after exactly one space. -/
theorem c4_amended_append (command : Str) (extra : List Str) (hne : extra ≠ []) :
    ((prstrip command).getLast? = some '\\' →
      ∃ stem k, 1 ≤ k ∧
        prstrip command = stem ++ List.replicate k '\\' ∧
        stem.getLast? ≠ some '\\' ∧
        appendExtraArgs command extra =
          prstrip stem ++ chars " \\" ++ '\n' :: chars "    " ++ joinSp extra) ∧
    ((prstrip command).getLast? ≠ some '\\' →
      appendExtraArgs command extra = prstrip command ++ ' ' :: joinSp extra) := by
  constructor
  · intro hlast
    refine ⟨rstripBy (fun d => d = '\\') (prstrip command),
      ((prstrip command).reverse.takeWhile (fun d => d = '\\')).length, ?_, ?_, ?_, ?_⟩
    · cases hrev : (prstrip command).reverse with
      | nil =>
        rw [← List.head?_reverse, hrev] at hlast
        simp at hlast
      | cons a as =>
        rw [← List.head?_reverse, hrev] at hlast
        simp only [List.head?] at hlast
        have ha : a = '\\' := Option.some.inj hlast
        rw [List.takeWhile_cons, if_pos (by simp [ha])]
        simp
    · conv_lhs => rw [← List.reverse_reverse (prstrip command),
        ← List.takeWhile_append_dropWhile (p := fun d => d = '\\')
          (l := (prstrip command).reverse)]
      rw [List.reverse_append]
      unfold rstripBy
      congr 1
      have hall : ∀ b ∈ (prstrip command).reverse.takeWhile (fun d => d = '\\'), b = '\\' :=
        fun b hb => by simpa using List.mem_takeWhile_imp hb
      rw [List.eq_replicate_of_mem hall, List.reverse_replicate, List.length_replicate]
    · unfold rstripBy
      cases hd : (prstrip command).reverse.dropWhile (fun d => d = '\\') with
      | nil => simp
      | cons d ds =>
        rw [List.getLast?_reverse]
        have hpd := dropWhile_cons_head_false _ d ds hd
        simp only [List.head?]
        intro hc
        rw [Option.some.inj hc] at hpd
        simp at hpd
    · unfold appendExtraArgs
      rw [if_pos hlast]
      rfl
  · intro hlast
    unfold appendExtraArgs
    rw [if_neg hlast]

/-- C4 witness: the amended statement at a command with no continuation
marker — exactly one separating space is inserted. -/
theorem c4_amended_append_witness :
    ([chars "--a"] ≠ ([] : List Str)) ∧
    (prstrip (chars "echo")).getLast? ≠ some '\\' ∧
    appendExtraArgs (chars "echo") [chars "--a"] =
      prstrip (chars "echo") ++ ' ' :: joinSp [chars "--a"] :=
  ⟨by decide, by decide,
   (c4_amended_append (chars "echo") [chars "--a"] (by decide)).2 (by decide)⟩

/-! ### Strip lemmas for the environment-cache round trip -/

theorem mem_of_head?_eq {l : Str} {a : Char} (h : l.head? = some a) : a ∈ l :=
  List.mem_of_mem_head? (by simp [Option.mem_def, h])

theorem mem_of_getLast?_eq {l : Str} {a : Char} (h : l.getLast? = some a) : a ∈ l := by
  have hh : l.reverse.head? = some a := by rw [List.head?_reverse]; exact h
  exact (List.mem_reverse).mp (mem_of_head?_eq hh)

theorem contains_true_of_mem {a : Char} {l : Str} (h : a ∈ l) : l.contains a = true :=
  List.elem_iff.mpr h

theorem not_mem_of_contains_false {a : Char} {l : Str} (h : l.contains a = false) : a ∉ l := by
  intro hm
  rw [contains_true_of_mem hm] at h
  exact absurd h (by simp)

theorem lstripBy_of_head (p : Char → Bool) (l : Str)
    (h : ∀ c, l.head? = some c → p c = false) : lstripBy p l = l := by
  cases l with
  | nil => rfl
  | cons x xs =>
    unfold lstripBy
    rw [List.dropWhile_cons, if_neg (by simp [h x rfl])]

theorem rstripBy_of_getLast (p : Char → Bool) (l : Str)
    (h : ∀ c, l.getLast? = some c → p c = false) : rstripBy p l = l := by
  cases hr : l.reverse with
  | nil =>
    have hl : l = [] := by simpa using congrArg List.reverse hr
    subst hl; rfl
  | cons a as =>
    have ha : l.getLast? = some a := by rw [← List.head?_reverse, hr]; rfl
    unfold rstripBy
    rw [hr, List.dropWhile_cons, if_neg (by simp [h a ha]), ← hr, List.reverse_reverse]

theorem stripBy_of_ends (p : Char → Bool) (l : Str)
    (hh : ∀ c, l.head? = some c → p c = false)
    (hl : ∀ c, l.getLast? = some c → p c = false) : stripBy p l = l := by
  unfold stripBy
  rw [lstripBy_of_head p l hh, rstripBy_of_getLast p l hl]

theorem head_fails_of_lstripBy_eq (p : Char → Bool) (x : Char) (xs : Str)
    (h : lstripBy p (x :: xs) = x :: xs) : p x = false := by
  by_cases hp : p x
  · exfalso
    unfold lstripBy at h
    rw [List.dropWhile_cons, if_pos hp] at h
    have hlen := congrArg List.length h
    have hle := (List.dropWhile_suffix (l := xs) p).length_le
    simp at hlen
    omega
  · simpa using hp

theorem lstripBy_eq_of_stripBy_eq (p : Char → Bool) (l : Str)
    (h : stripBy p l = l) : lstripBy p l = l := by
  have h1 : (lstripBy p l).length ≤ l.length := (List.dropWhile_suffix p).length_le
  have h2 : (stripBy p l).length ≤ (lstripBy p l).length := by
    unfold stripBy rstripBy
    calc ((lstripBy p l).reverse.dropWhile p).reverse.length
        = ((lstripBy p l).reverse.dropWhile p).length := List.length_reverse _
      _ ≤ (lstripBy p l).reverse.length := (List.dropWhile_suffix p).length_le
      _ = (lstripBy p l).length := List.length_reverse _
  rw [h] at h2
  exact (List.dropWhile_suffix p).eq_of_length (le_antisymm h1 h2)

theorem rstripBy_eq_of_stripBy_eq (p : Char → Bool) (l : Str)
    (h : stripBy p l = l) : rstripBy p l = l := by
  have hl := lstripBy_eq_of_stripBy_eq p l h
  unfold stripBy at h
  rw [hl] at h
  exact h

theorem pstrip_head_false (l : Str) (h : pstrip l = l) (c : Char)
    (hc : l.head? = some c) : pyIsSpace c = false := by
  cases l with
  | nil => simp at hc
  | cons x xs =>
    have hx : x = c := by simpa using hc
    subst hx
    exact head_fails_of_lstripBy_eq pyIsSpace x xs (lstripBy_eq_of_stripBy_eq pyIsSpace _ h)

theorem getLast_fails_of_rstripBy_eq (p : Char → Bool) (l : Str)
    (h : rstripBy p l = l) (c : Char) (hc : l.getLast? = some c) : p c = false := by
  cases hr : l.reverse with
  | nil =>
    rw [← List.head?_reverse, hr] at hc
    simp at hc
  | cons a as =>
    have ha : a = c := by
      rw [← List.head?_reverse, hr] at hc
      simpa using hc
    subst ha
    have h' : l.reverse.dropWhile p = l.reverse := by
      have hcongr := congrArg List.reverse h
      rwa [show (rstripBy p l).reverse = l.reverse.dropWhile p by
        unfold rstripBy; rw [List.reverse_reverse]] at hcongr
    rw [hr] at h'
    exact head_fails_of_lstripBy_eq p a as h'

theorem pstrip_getLast_false (l : Str) (h : pstrip l = l) (c : Char)
    (hc : l.getLast? = some c) : pyIsSpace c = false :=
  getLast_fails_of_rstripBy_eq pyIsSpace l (rstripBy_eq_of_stripBy_eq pyIsSpace l h) c hc

theorem stripCh_no (c : Char) (v : Str) (h : c ∉ v) : stripCh c v = v := by
  unfold stripCh
  apply stripBy_of_ends
  · intro d hd
    have hdc : d ≠ c := fun hh => h (hh ▸ mem_of_head?_eq hd)
    simp [hdc]
  · intro d hd
    have hdc : d ≠ c := fun hh => h (hh ▸ mem_of_getLast?_eq hd)
    simp [hdc]

theorem stripCh_wrap (c : Char) (v : Str) (h : c ∉ v) :
    stripCh c (c :: v ++ [c]) = v := by
  show stripBy (fun d => d = c) (c :: v ++ [c]) = v
  unfold stripBy lstripBy
  rw [List.cons_append, List.dropWhile_cons, if_pos (by simp)]
  cases v with
  | nil =>
    rw [show List.dropWhile (fun d => decide (d = c)) ([] ++ [c]) = [] by simp]
    rfl
  | cons x xs =>
    have hx : x ≠ c := fun hh => h (hh ▸ List.mem_cons_self x xs)
    rw [show (x :: xs) ++ [c] = x :: (xs ++ [c]) from rfl]
    rw [List.dropWhile_cons, if_neg (by simp [hx])]
    unfold rstripBy
    rw [show (x :: (xs ++ [c])).reverse = c :: (x :: xs).reverse by
      rw [show x :: (xs ++ [c]) = (x :: xs) ++ [c] from rfl, List.reverse_append]; rfl]
    rw [List.dropWhile_cons, if_pos (by simp)]
    cases hrev : (x :: xs).reverse with
    | nil => exact absurd (congrArg List.length hrev) (by simp)
    | cons b bs =>
      have hb : b ∈ x :: xs := by
        have : b ∈ (x :: xs).reverse := by rw [hrev]; exact List.mem_cons_self b bs
        exact (List.mem_reverse).mp this
      have hbc : b ≠ c := fun hh => h (hh ▸ hb)
      rw [List.dropWhile_cons, if_neg (by simp [hbc]), ← hrev, List.reverse_reverse]

theorem lstripBy_append_of_eq (p : Char → Bool) (k rest : Str)
    (hk : lstripBy p k = k) (hr : lstripBy p rest = rest) :
    lstripBy p (k ++ rest) = k ++ rest := by
  cases k with
  | nil => simpa using hr
  | cons x xs =>
    have hx := head_fails_of_lstripBy_eq p x xs hk
    show List.dropWhile p (x :: (xs ++ rest)) = x :: (xs ++ rest)
    rw [List.dropWhile_cons, if_neg (by simp [hx])]

theorem rstripBy_append_of_eq (p : Char → Bool) (a b : Str)
    (hb : rstripBy p b = b) (hbne : b ≠ []) :
    rstripBy p (a ++ b) = a ++ b := by
  unfold rstripBy
  rw [List.reverse_append]
  cases hbr : b.reverse with
  | nil => exact absurd (by simpa using congrArg List.reverse hbr) hbne
  | cons c cs =>
    have hcp : p c = false := by
      have h' : b.reverse.dropWhile p = b.reverse := by
        have hcongr := congrArg List.reverse hb
        rwa [show (rstripBy p b).reverse = b.reverse.dropWhile p by
          unfold rstripBy; rw [List.reverse_reverse]] at hcongr
      rw [hbr] at h'
      exact head_fails_of_lstripBy_eq p c cs h'
    rw [List.cons_append, List.dropWhile_cons, if_neg (by simp [hcp])]
    rw [← List.cons_append, ← hbr, ← List.reverse_append, List.reverse_reverse]

theorem partAtCh_append (c : Char) (k t : Str) (h : c ∉ k) :
    partAtCh c (k ++ c :: t) = (k, t) := by
  induction k with
  | nil => simp [partAtCh]
  | cons x xs ih =>
    have hx : x ≠ c := fun hh => h (hh ▸ List.mem_cons_self x xs)
    have hxs : c ∉ xs := fun hm => h (List.mem_cons_of_mem x hm)
    show partAtCh c (x :: (xs ++ c :: t)) = (x :: xs, t)
    unfold partAtCh
    rw [if_neg hx, ih hxs]

/-- Processing a well-formed `key=rest` line: the key is recovered
verbatim and the read value is the quote-and-whitespace-stripped `rest`. -/
theorem parseEnvLine_good (acc : PyDict) (k t v : Str)
    (hk : goodEnvKey k) (hts : pstrip t = t)
    (htv : stripCh '\'' (stripCh '"' t) = v) :
    parseEnvLine acc (k ++ '=' :: t) = dinsert acc k v := by
  obtain ⟨hk1, hk2, hk3, hk4⟩ := hk
  have heqt : lstripBy pyIsSpace ('=' :: t) = '=' :: t := by
    unfold lstripBy
    rw [List.dropWhile_cons, if_neg (by simp [pyIsSpace])]
  have hrt : rstripBy pyIsSpace ('=' :: t) = '=' :: t := by
    apply rstripBy_of_getLast
    intro c hc
    cases t with
    | nil =>
      have : c = '=' := by simpa using hc.symm
      subst this
      decide
    | cons y ys =>
      rw [List.getLast?_cons_cons] at hc
      exact pstrip_getLast_false (y :: ys) hts c hc
  have hline : pstrip (k ++ '=' :: t) = k ++ '=' :: t := by
    unfold pstrip stripBy
    rw [lstripBy_append_of_eq pyIsSpace k ('=' :: t)
      (lstripBy_eq_of_stripBy_eq pyIsSpace k hk1) heqt]
    exact rstripBy_append_of_eq pyIsSpace k ('=' :: t) hrt (by simp)
  have hempty : (k ++ '=' :: t).isEmpty = false := by
    cases hx : k ++ '=' :: t with
    | nil => exact absurd hx (by simp)
    | cons a as => rfl
  have hhash : (chars "#").isPrefixOf (k ++ '=' :: t) = false := by
    cases k with
    | nil =>
      show List.isPrefixOf ['#'] ('=' :: t) = false
      simp [List.isPrefixOf]
    | cons x xs =>
      have hx : x ≠ '#' := fun hh => hk4 (by simp [hh])
      have hbx : ('#' == x) = false := beq_eq_false_iff_ne.mpr (Ne.symm hx)
      show List.isPrefixOf ['#'] (x :: (xs ++ '=' :: t)) = false
      simp [List.isPrefixOf, hbx]
  have hcont : (k ++ '=' :: t).contains '=' = true :=
    contains_true_of_mem (List.mem_append.mpr (Or.inr (List.mem_cons_self _ _)))
  have hpart : partAtCh '=' (k ++ '=' :: t) = (k, t) :=
    partAtCh_append '=' k t (not_mem_of_contains_false hk2)
  simp only [parseEnvLine]
  rw [hline, hempty, hhash, hcont, hpart]
  simp only [Bool.not_false, Bool.and_self, if_true, Bool.and_true, Bool.true_and]
  rw [hts, htv, hk1]

/-- The save/load round trip of one binding line. -/
theorem parseEnvLine_saveLine (acc : PyDict) (k v : Str)
    (hk : goodEnvKey k) (hv : goodEnvVal v) :
    parseEnvLine acc (saveLine k v) = dinsert acc k v := by
  obtain ⟨hv1, hv2, hv3, hv4⟩ := hv
  have hnq : '"' ∉ v := not_mem_of_contains_false hv2
  have hns : '\'' ∉ v := not_mem_of_contains_false hv3
  by_cases hq : (v.contains ' ' || v.contains ',') = true
  · rw [show saveLine k v = k ++ '=' :: (('"' :: v) ++ ['"']) by
      unfold saveLine; rw [if_pos hq, List.append_assoc, List.cons_append]]
    apply parseEnvLine_good acc k _ v hk
    · apply stripBy_of_ends
      · intro c hc
        have : c = '"' := by simpa using hc.symm
        subst this
        decide
      · intro c hc
        rw [List.getLast?_concat] at hc
        have : c = '"' := by simpa using hc.symm
        subst this
        decide
    · rw [stripCh_wrap '"' v hnq, stripCh_no '\'' v hns]
  · have hsp : v.contains ' ' = false := by
      cases h1 : v.contains ' ' with
      | false => rfl
      | true => exact absurd (by rw [h1]; rfl) hq
    have hcm : v.contains ',' = false := by
      cases h1 : v.contains ',' with
      | false => rfl
      | true => exact absurd (by rw [hsp, h1]; rfl) hq
    have hvs : pstrip v = v := by
      rcases hv4 with h1 | h1 | h1
      · rw [h1] at hsp; exact absurd hsp (by simp)
      · rw [h1] at hcm; exact absurd hcm (by simp)
      · exact h1
    rw [show saveLine k v = k ++ '=' :: v by unfold saveLine; rw [if_neg hq]]
    apply parseEnvLine_good acc k v v hk hvs
    rw [stripCh_no '"' v hnq, stripCh_no '\'' v hns]

theorem parseEnvLine_blank (acc : PyDict) : parseEnvLine acc [] = acc := rfl

theorem parseEnvLine_header (acc : PyDict) :
    parseEnvLine acc (chars "# Auto-generated by run-recipe.py --discover") = acc := rfl

theorem foldl_parse_saved (ps : PyDict) (acc : PyDict)
    (hgood : ∀ p ∈ ps, goodEnvKey p.1 ∧ goodEnvVal p.2) :
    (ps.map (fun q => saveLine q.1 q.2)).foldl parseEnvLine acc =
      ps.foldl (fun d q => dinsert d q.1 q.2) acc := by
  induction ps generalizing acc with
  | nil => rfl
  | cons q rest ih =>
    simp only [List.map_cons, List.foldl_cons]
    rw [parseEnvLine_saveLine acc q.1 q.2 (hgood q (by simp)).1 (hgood q (by simp)).2]
    exact ih (dinsert acc q.1 q.2) (fun p hp => hgood p (by simp [hp]))

theorem foldl_dinsert_fresh (ps : PyDict) (acc : PyDict)
    (hacc : ∀ p ∈ ps, alookup acc p.1 = none)
    (hnd : (ps.map Prod.fst).Nodup) :
    ps.foldl (fun d q => dinsert d q.1 q.2) acc = acc ++ ps := by
  induction ps generalizing acc with
  | nil => simp
  | cons q rest ih =>
    simp only [List.foldl_cons]
    have hin : dinsert acc q.1 q.2 = acc ++ [q] := by
      unfold dinsert
      rw [if_neg (by rw [hacc q (by simp)]; simp)]
    rw [hin]
    simp only [List.map_cons, List.nodup_cons] at hnd
    rw [ih (acc ++ [q]) ?fresh hnd.2]
    case fresh =>
      intro p hp
      rw [alookup_append_right _ _ _ (hacc p (by simp [hp]))]
      show (if q.1 = p.1 then some q.2 else alookup [] p.1) = none
      rw [if_neg ?_, alookup]
      intro hh
      exact hnd.1 (by rw [hh]; exact List.mem_map_of_mem Prod.fst hp)
    rw [List.append_assoc]
    rfl

theorem alookup_perm {β : Type} : ∀ {l l' : List (Str × β)}, l.Perm l' →
    (l.map Prod.fst).Nodup → ∀ k, alookup l k = alookup l' k := by
  intro l l' hp
  induction hp with
  | nil => intro _ _; rfl
  | cons x h ih =>
    intro hnd k
    simp only [List.map_cons, List.nodup_cons] at hnd
    show (if x.1 = k then some x.2 else alookup _ k) =
      (if x.1 = k then some x.2 else alookup _ k)
    rw [ih hnd.2 k]
  | swap x y l =>
    intro hnd k
    simp only [List.map_cons, List.nodup_cons, List.mem_cons] at hnd
    have hxy : y.1 ≠ x.1 := fun hh => hnd.1 (Or.inl hh)
    show (if y.1 = k then some y.2 else if x.1 = k then some x.2 else alookup l k) =
      (if x.1 = k then some x.2 else if y.1 = k then some y.2 else alookup l k)
    by_cases hy : y.1 = k <;> by_cases hx : x.1 = k
    · exact absurd (hy.trans hx.symm) hxy
    · rw [if_pos hy, if_neg hx, if_pos hy]
    · rw [if_neg hy, if_pos hx, if_pos hx]
    · rw [if_neg hy, if_neg hx, if_neg hx, if_neg hy]
  | trans h1 h2 ih1 ih2 =>
    intro hnd k
    rw [ih1 hnd k, ih2 (((h1.map Prod.fst).nodup_iff).mp hnd) k]

theorem saveLine_no_newline (k v : Str) (hk : goodEnvKey k) (hv : goodEnvVal v) :
    '\n' ∉ saveLine k v := by
  obtain ⟨_, _, hk3, _⟩ := hk
  obtain ⟨hv1, _, _, _⟩ := hv
  have hkm : '\n' ∉ k := not_mem_of_contains_false hk3
  have hvm : '\n' ∉ v := not_mem_of_contains_false hv1
  unfold saveLine
  split
  · intro hm
    rcases List.mem_append.mp hm with hm | hm
    · rcases List.mem_append.mp hm with hm | hm
      · exact hkm hm
      · rcases List.mem_cons.mp hm with hm | hm
        · exact (by decide : ('\n' : Char) ≠ '=') hm
        rcases List.mem_cons.mp hm with hm | hm
        · exact (by decide : ('\n' : Char) ≠ '"') hm
        · exact hvm hm
    · exact (by decide : ('\n' : Char) ≠ '"') (List.mem_singleton.mp hm)
  · intro hm
    rcases List.mem_append.mp hm with hm | hm
    · exact hkm hm
    rcases List.mem_cons.mp hm with hm | hm
    · exact (by decide : ('\n' : Char) ≠ '=') hm
    · exact hvm hm

/-- C5 (amended): the environment-cache round trip holds for mappings
with well-formed keys and values: keys with no surrounding whitespace, no
`=`, no newline, not starting with `#`, pairwise distinct; values with no
newline and no quote characters which, when they contain neither space
nor comma (and are therefore written unquoted), carry no surrounding
whitespace.  Then loading the saved file reproduces the mapping
(lookup-for-lookup), with quoting applied on write and removed on read. -/
theorem c5_amended_roundtrip (env : PyDict)
    (hnd : (env.map Prod.fst).Nodup)
    (hgood : ∀ p ∈ env, goodEnvKey p.1 ∧ goodEnvVal p.2) (k : Str) :
    alookup (loadEnvFileStr (saveEnvFileStr env)) k = alookup env k := by
  have hperm : (sortPairs env).Perm env := List.perm_insertionSort _ env
  have hgood' : ∀ p ∈ sortPairs env, goodEnvKey p.1 ∧ goodEnvVal p.2 :=
    fun p hp => hgood p (hperm.mem_iff.mp hp)
  have hnd' : ((sortPairs env).map Prod.fst).Nodup :=
    ((hperm.map Prod.fst).nodup_iff).mpr hnd
  unfold loadEnvFileStr saveEnvFileStr
  rw [joinCh_split_inv '\n' (saveEnvLines env) ?nonl (by unfold saveEnvLines; simp)]
  case nonl =>
    intro l hl
    unfold saveEnvLines at hl
    rcases List.mem_append.mp hl with hl | hl
    · rcases List.mem_append.mp hl with hl | hl
      · rcases List.mem_cons.mp hl with hl | hl
        · subst hl; decide
        · rw [List.mem_singleton.mp hl]; simp
      · obtain ⟨p, hp, hpe⟩ := List.mem_map.mp hl
        rw [← hpe]
        exact saveLine_no_newline p.1 p.2 (hgood' p hp).1 (hgood' p hp).2
    · rw [List.mem_singleton.mp hl]; simp
  unfold saveEnvLines
  rw [List.foldl_append, List.foldl_append]
  rw [show List.foldl parseEnvLine ([] : PyDict)
    [chars "# Auto-generated by run-recipe.py --discover", []] = [] from rfl]
  rw [foldl_parse_saved (sortPairs env) [] hgood']
  rw [foldl_dinsert_fresh (sortPairs env) [] (fun p _ => rfl) hnd']
  rw [show List.foldl parseEnvLine (([] : PyDict) ++ sortPairs env) [[]] =
    [] ++ sortPairs env from rfl]
  show alookup (sortPairs env) k = alookup env k
  exact alookup_perm hperm hnd' k

/-- C5 (counterexample): the claim's conditions (values free of newlines
and quotes) are not enough: a tab-led value with no space and no comma is
written unquoted and the reader's `value.strip()` removes the tab, so the
loaded mapping differs from the saved one. -/
theorem c5_counterexample :
    ('\t' :: chars "a").contains '\n' = false ∧
    ('\t' :: chars "a").contains '"' = false ∧
    ('\t' :: chars "a").contains '\'' = false ∧
    alookup (loadEnvFileStr (saveEnvFileStr c5exEnv)) (chars "K") = some (chars "a") ∧
    alookup c5exEnv (chars "K") = some ('\t' :: chars "a") ∧
    alookup (loadEnvFileStr (saveEnvFileStr c5exEnv)) (chars "K") ≠
      alookup c5exEnv (chars "K") :=
  ⟨rfl, rfl, rfl, rfl, rfl, by decide⟩

/-- C5 witness: the amended round trip at a discovered configuration
whose node list contains commas and spaces. -/
theorem c5_amended_roundtrip_witness :
    alookup (loadEnvFileStr (saveEnvFileStr c5exEnv2)) (chars "CLUSTER_NODES") =
      alookup c5exEnv2 (chars "CLUSTER_NODES") :=
  c5_amended_roundtrip c5exEnv2 (by decide) (by decide) (chars "CLUSTER_NODES")

/-! ### Build-phase idempotence -/

/-- C6 (counterexample): in a cluster state where the local image exists,
no force flag is set, but a worker lacks the image, the second build-phase
run still invokes the build tool (once, copying to the missing worker) —
the claim says zero invocations for every such state. -/
theorem c6_counterexample :
    c6exWorld.localImage = true ∧
    (buildPhaseRun (chars "img") (some [chars "w1"]) [] false c6exWorld).2 =
      [Ev.localInspect (chars "img"), Ev.remoteInspect (chars "img") (chars "w1"),
       Ev.buildTool (chars "img") [chars "w1"] []] ∧
    buildEvents (buildPhaseRun (chars "img") (some [chars "w1"]) [] false c6exWorld).2 =
      [Ev.buildTool (chars "img") [chars "w1"] []] :=
  ⟨rfl, rfl, rfl⟩

/-- C6 (amended): with the image present locally and no force flag, the
build phase invokes the build tool zero times exactly when no truthy copy
target is missing the image (in particular always in solo mode); when
some targets are missing and the build script exists, it is invoked
exactly once, copying to exactly the missing workers. -/
theorem buildEvents_nil : buildEvents [] = [] := rfl

theorem buildEvents_append (a b : List Ev) :
    buildEvents (a ++ b) = buildEvents a ++ buildEvents b := by
  simp [buildEvents, List.filter_append]

theorem buildEvents_localInspect (container : Str) :
    buildEvents [Ev.localInspect container] = [] := rfl

theorem buildEvents_cons_local (i : Str) (tr : List Ev) :
    buildEvents (Ev.localInspect i :: tr) = buildEvents tr := by
  simp [buildEvents, isBuildEv]

theorem buildEvents_cons_remote (i x : Str) (tr : List Ev) :
    buildEvents (Ev.remoteInspect i x :: tr) = buildEvents tr := by
  simp [buildEvents, isBuildEv]

theorem buildEvents_cons_build (i : Str) (ctl bl : List Str) (tr : List Ev) :
    buildEvents (Ev.buildTool i ctl bl :: tr) = Ev.buildTool i ctl bl :: buildEvents tr := by
  simp [buildEvents, isBuildEv]

theorem buildEvents_remoteInspects (container : Str) (l : List Str) :
    buildEvents (l.map (fun x => Ev.remoteInspect container x)) = [] := by
  induction l with
  | nil => rfl
  | cons x xs ih => simpa [buildEvents, isBuildEv] using ih

theorem c6_amended_idempotence (container : Str) (bargs : List Str)
    (ct : Option (List Str)) (w : World) (h : w.localImage = true) :
    buildEvents (buildPhaseRun container ct bargs false w).2 =
      (let missing := (match ct with | some l => l | none => []).filter
        (fun x => !w.workerHasImage x)
       if missing.isEmpty || !w.buildScriptExists then []
       else [Ev.buildTool container missing bargs]) := by
  match ct with
  | none =>
    simp [buildPhaseRun, h, buildEvents_localInspect]
  | some [] =>
    simp [buildPhaseRun, h, buildEvents_localInspect, List.filter_nil]
  | some (t :: ts) =>
    by_cases hm : ((t :: ts).filter (fun x => !w.workerHasImage x)).isEmpty
    · simp only [buildPhaseRun, h, Bool.not_true, Bool.or_self, Bool.false_eq_true,
        if_false, hm, Bool.not_false, if_true, Bool.true_or, if_pos]
      simp [hm, buildEvents_cons_local, buildEvents_cons_remote,
        buildEvents_remoteInspects]
    · by_cases hs : w.buildScriptExists
      · simp only [buildPhaseRun, buildImageM, h, hs, Bool.not_true, Bool.or_self,
          Bool.false_eq_true, if_false, hm, Bool.not_false, if_true]
        by_cases hok : w.buildOk
        · simp [hok, hm, hs, buildEvents_append, buildEvents_cons_local,
            buildEvents_cons_remote, buildEvents_cons_build, buildEvents_nil,
            buildEvents_remoteInspects]
        · simp [hok, hm, hs, buildEvents_append, buildEvents_cons_local,
            buildEvents_cons_remote, buildEvents_cons_build, buildEvents_nil,
            buildEvents_remoteInspects]
      · simp only [buildPhaseRun, buildImageM, h, hs, Bool.not_true, Bool.or_self,
          Bool.false_eq_true, if_false, hm, Bool.not_false, if_true]
        simp [hm, hs, buildEvents_append, buildEvents_cons_local,
          buildEvents_cons_remote, buildEvents_nil, buildEvents_remoteInspects]

/-- C6 witness: the amended statement at a cluster state where the
worker already has the image — zero build-tool invocations. -/
theorem c6_amended_idempotence_witness :
    c6exWorld2.localImage = true ∧
    buildEvents (buildPhaseRun (chars "img") (some [chars "w1"]) [] false c6exWorld2).2
      = [] :=
  ⟨rfl,
   (c6_amended_idempotence (chars "img") [] (some [chars "w1"]) c6exWorld2 rfl).trans
     (by decide)⟩

/-! ### Override construction and the build-now prompt -/

theorem alookup_foldl_opt (ps : List (Str × Option Str)) (acc : PyDict) (k : Str)
    (h : ∀ p ∈ ps, p.1 = k → p.2 = none) (hacc : alookup acc k = none) :
    alookup (ps.foldl
      (fun d p => match p.2 with | some v => dinsert d p.1 v | none => d) acc) k = none := by
  induction ps generalizing acc with
  | nil => exact hacc
  | cons q rest ih =>
    simp only [List.foldl_cons]
    cases hq : q.2 with
    | none =>
      exact ih acc (fun p hp => h p (by simp [hp])) hacc
    | some v =>
      have hqk : q.1 ≠ k := fun hh => by
        rw [h q (by simp) hh] at hq
        exact absurd hq (by simp)
      exact ih (dinsert acc q.1 v) (fun p hp => h p (by simp [hp]))
        (by rw [alookup_dinsert_ne acc q.1 k v (fun hh => hqk hh.symm)]; exact hacc)

/-- C9: in solo mode with no explicit `--tensor-parallel`/`--tp`
override, the override map handed to script generation contains
`tensor_parallel = 1`, and since CLI overrides win the merge, the merged
parameter map substitutes 1 for the `tensor_parallel` placeholder no
matter what the recipe's defaults declare for that key. -/
theorem c9_solo_tp_default (a : Args) (defaults : PyDict)
    (h : a.tensorParallel = none) :
    alookup (applySoloTp (buildOverridesD a) true) (chars "tensor_parallel") =
      some (chars "1") ∧
    alookup (pyMergeD defaults (applySoloTp (buildOverridesD a) true))
      (chars "tensor_parallel") = some (chars "1") := by
  have hbo : alookup (buildOverridesD a) (chars "tensor_parallel") = none := by
    unfold buildOverridesD
    apply alookup_foldl_opt (cliOverridePairs a) [] (chars "tensor_parallel") ?_ rfl
    intro p hp hk
    simp only [cliOverridePairs, List.mem_cons, List.not_mem_nil, or_false] at hp
    rcases hp with hp | hp | hp | hp | hp <;> subst hp
    · exact absurd hk (by show ¬chars "port" = chars "tensor_parallel"; decide)
    · exact absurd hk (by show ¬chars "host" = chars "tensor_parallel"; decide)
    · exact h
    · exact absurd hk
        (by show ¬chars "gpu_memory_utilization" = chars "tensor_parallel"; decide)
    · exact absurd hk (by show ¬chars "max_model_len" = chars "tensor_parallel"; decide)
  have happ : applySoloTp (buildOverridesD a) true =
      buildOverridesD a ++ [(chars "tensor_parallel", chars "1")] := by
    unfold applySoloTp dinsert
    rw [hbo]
    simp
  constructor
  · rw [happ, alookup_append_right _ _ _ hbo]
    rfl
  · rw [happ]
    unfold pyMergeD
    rw [List.foldl_append]
    simp only [List.foldl_cons, List.foldl_nil]
    exact alookup_dinsert_self _ _ _

/-- C9 witness: a solo invocation with `--port 9000` and no
tensor-parallel override, over a recipe default `tensor_parallel = 8`. -/
theorem c9_solo_tp_default_witness :
    alookup (pyMergeD [(chars "tensor_parallel", chars "8")]
      (applySoloTp (buildOverridesD c9exArgs) true)) (chars "tensor_parallel") =
      some (chars "1") :=
  (c9_solo_tp_default c9exArgs [(chars "tensor_parallel", chars "8")] rfl).2

/-- C10: at the run phase's build-now prompt, a build is triggered
exactly when the response, stripped of surrounding whitespace and
lowercased, is the single character `y`; every other response — including
`yes` and empty input — makes the gate abort the invocation with exit
status 1 and no build attempt.  (`Y` and `  y ` do accept.) -/
theorem c10_build_prompt :
    (∀ resp : Str, buildNowAccepts resp = true ↔ lowerStr (pstrip resp) = chars "y") ∧
    (∀ (resp container : Str) (ct : Option (List Str)) (b : List Str) (se ok : Bool),
      buildNowAccepts resp = false →
        runBuildNowGate container ct b resp se ok = (some 1, [])) ∧
    (∀ (resp container : Str) (ct : Option (List Str)) (b : List Str) (se ok : Bool),
      buildNowAccepts resp = true →
        runBuildNowGate container ct b resp se ok =
          (let r := buildImageM container ct b se ok
           (if r.1 then none else some 1, r.2))) ∧
    buildNowAccepts (chars "yes") = false ∧
    buildNowAccepts [] = false ∧
    buildNowAccepts (chars "Y") = true ∧
    buildNowAccepts (chars "  y ") = true := by
  refine ⟨fun resp => ?_, fun resp container ct b se ok hf => ?_,
    fun resp container ct b se ok ht => ?_, by decide, by decide, by decide, by decide⟩
  · unfold buildNowAccepts
    exact decide_eq_true_iff
  · unfold runBuildNowGate
    rw [hf]
    rfl
  · unfold runBuildNowGate
    rw [ht, if_pos rfl]
    by_cases hr : (buildImageM container ct b se ok).1 = true <;> simp [hr]

/-- C10 witness: `yes` is a decline — the gate aborts with exit 1 and no
build — while `y` triggers the on-demand build. -/
theorem c10_build_prompt_witness :
    runBuildNowGate (chars "img") none [] (chars "yes") true true = (some 1, []) ∧
    runBuildNowGate (chars "img") none [] (chars "y") true true =
      (none, [Ev.buildTool (chars "img") [] []]) := by
  constructor
  · exact c10_build_prompt.2.1 (chars "yes") (chars "img") none [] true true (by decide)
  · exact (c10_build_prompt.2.2.1 (chars "y") (chars "img") none [] true true
      (by decide)).trans (by decide)

/-! ### The cluster-only gate -/

theorem runAutodiscoverM_events (w : World) :
    (runAutodiscoverM w).2 = [] ∨ (runAutodiscoverM w).2 = [Ev.discover] := by
  by_cases hs : w.adScriptExists = true
  · cases hr : w.adResult with
    | none => right; simp [runAutodiscoverM, hs, hr]
    | some env0 =>
      by_cases ht : truthyO (alookup env0 (chars "CLUSTER_NODES")) = true
      · by_cases hl :
          (splitNodes ((alookup env0 (chars "CLUSTER_NODES")).getD [])).length > 1
        · by_cases he : ((splitNodes
              ((alookup env0 (chars "CLUSTER_NODES")).getD [])).filter
              w.adAccept).isEmpty = true
          · right; simp [runAutodiscoverM, hs, hr, ht, hl, he]
          · right; simp [runAutodiscoverM, hs, hr, ht, hl, he]
        · right; simp [runAutodiscoverM, hs, hr, ht, hl]
      · right; simp [runAutodiscoverM, hs, hr, ht]
  · left; simp [runAutodiscoverM, hs]

theorem resolveNodes_events (a : Args) (w : World) (ef : Option Str) :
    (resolveNodes a w ef).2 = [] ∨ (resolveNodes a w ef).2 = [Ev.discover] := by
  by_cases h1 : ((parseNodes a.nodesArg).isEmpty && !a.solo) = true
  · by_cases h2 : truthyO (alookup (loadEnvD ef) (chars "CLUSTER_NODES")) = true
    · left; simp [resolveNodes, h1, h2]
    · have hev := runAutodiscoverM_events w
      rcases had : runAutodiscoverM w with ⟨od, evs⟩
      rw [had] at hev
      simp only at hev
      cases od with
      | some denv =>
        by_cases h3 : truthyO (alookup denv (chars "CLUSTER_NODES")) = true
        · simpa [resolveNodes, h1, h2, had, h3] using hev
        · simpa [resolveNodes, h1, h2, had, h3] using hev
      | none => simpa [resolveNodes, h1, h2, had] using hev
  · left; simp [resolveNodes, h1]

theorem preamble_cases (a : Args) (w : World) (h2 : a.recipeGiven = true)
    (h3 : a.listFlag = false) :
    (∃ evs, preamble a w = .error (1, evs) ∧ (evs = [] ∨ evs = [Ev.discover])) ∨
    (∃ evs ef, preamble a w = .ok (evs, ef) ∧ (evs = [] ∨ evs = [Ev.discover])) := by
  by_cases hd : a.discover = true
  · have hev := runAutodiscoverM_events w
    rcases had : runAutodiscoverM w with ⟨od, evs⟩
    rw [had] at hev
    simp only at hev
    cases od with
    | none => exact Or.inl ⟨evs, by simp [preamble, hd, had, h2, h3], hev⟩
    | some denv =>
      exact Or.inr ⟨evs, some (saveEnvFileStr denv),
        by simp [preamble, hd, had, h2, h3], hev⟩
  · exact Or.inr ⟨[], w.envFile, by simp [preamble, hd, h2, h3], Or.inl rfl⟩

/-- C2 (amended): with a cluster-only recipe, a recipe argument given, no
listing requested, and either `--solo` set or a resolved node list of at
most one node, `main` exits with status 1 before the build, download and
run phases — no build, download, remote-check, local-inspect or launch
subprocess ever appears in the trace — but the node-resolution (or
`--discover`) auto-discovery subprocess may run before that exit. -/
theorem c2_amended_cluster_gate (a : Args) (r : Recipe) (w : World)
    (h1 : r.clusterOnly = true) (h2 : a.recipeGiven = true) (h3 : a.listFlag = false)
    (h4 : a.solo = true ∨ (resolvedNodeList a w).length ≤ 1) :
    (mainModel a r w).1 = 1 ∧
    ∀ e ∈ (mainModel a r w).2, e = Ev.discover := by
  rcases preamble_cases a w h2 h3 with ⟨evs, hp, hev⟩ | ⟨evs, ef, hp, hev⟩
  · constructor
    · simp [mainModel, hp]
    · intro e he
      simp only [mainModel, hp] at he
      rcases hev with hev | hev <;> rw [hev] at he
      · exact absurd he (List.not_mem_nil e)
      · simpa using he
  · have hev2 := resolveNodes_events a w ef
    rcases hrn : resolveNodes a w ef with ⟨nodes, evs2⟩
    rw [hrn] at hev2
    simp only at hev2
    have hsolo : (a.solo || !decide (nodes.length > 1)) = true := by
      rcases h4 with h4 | h4
      · rw [h4]; rfl
      · have hef : mainEnvFile a w = ef := by unfold mainEnvFile; rw [hp]
        rw [resolvedNodeList, hef, hrn] at h4
        simp only at h4
        have hng : ¬nodes.length > 1 := by omega
        simp [hng]
    constructor
    · simp [mainModel, hp, hrn, h1, hsolo]
    · intro e he
      simp only [mainModel, hp, hrn, h1, hsolo, Bool.and_self, if_true] at he
      rcases (List.mem_append).mp he with he | he
      · rcases hev with hev | hev <;> rw [hev] at he
        · exact absurd he (List.not_mem_nil e)
        · simpa using he
      · rcases hev2 with hev2 | hev2 <;> rw [hev2] at he
        · exact absurd he (List.not_mem_nil e)
        · simpa using he

/-- C2 (counterexample): a cluster-only recipe invoked with no nodes, no
`--solo` and no `.env` cache runs the auto-discovery subprocess before
the cluster-only exit, so the claim's "no subprocess is invoked at any
point before that exit" fails: the exit status is 1, but the trace
already contains a discovery invocation. -/
theorem c2_counterexample :
    mainModel c2exArgs c2exRecipe c2exWorld = (1, [Ev.discover]) ∧
    Ev.discover ∈ (mainModel c2exArgs c2exRecipe c2exWorld).2 :=
  ⟨rfl, by decide⟩

/-- C2 witness: the amended statement at the concrete single-node
discovery scenario. -/
theorem c2_amended_cluster_gate_witness :
    (mainModel c2exArgs c2exRecipe c2exWorld).1 = 1 ∧
    ∀ e ∈ (mainModel c2exArgs c2exRecipe c2exWorld).2, e = Ev.discover :=
  c2_amended_cluster_gate c2exArgs c2exRecipe c2exWorld rfl rfl rfl
    (Or.inr (by decide))

end RunRecipe
